import Mathlib

/-!
Verification of the historia ingestion-and-indexing pipeline.

Strings from the Python sources are embedded as `List Char`; Python string
operations (`str.split`, slicing, `str.find`, `str.rfind`, `str.strip`) are
modelled by explicit functions below.  Sets iterated by the code are modelled
as lists in iteration order; error messages raised by the code are modelled as
Lean `String`s.
-/

namespace Historia

/-- ASCII whitespace recognised by Python's `str.split()` / `str.strip()`:
space, tab, newline, vertical tab, form feed, carriage return. -/
def isPySpace (c : Char) : Bool :=
  c = ' ' || c = '\t' || c = '\n' || c = '\x0b' || c = '\x0c' || c = '\r'

/-- Python `content.split()`: split on runs of whitespace, dropping empty
words — modelled as the operational left-to-right scan with a current-word
accumulator (held reversed).  Words are returned in order, each non-empty
and whitespace-free. -/
def pySplitAux : List Char → List Char → List (List Char)
  | [], acc => if acc = [] then [] else [acc.reverse]
  | c :: cs, acc =>
    if isPySpace c then
      if acc = [] then pySplitAux cs [] else acc.reverse :: pySplitAux cs []
    else pySplitAux cs (c :: acc)

def pySplit (l : List Char) : List (List Char) :=
  pySplitAux l []

/-- The word chunks `words[i:i+k]` for `i = 0, k, 2k, ...` produced by the
loop `for i in range(0, len(words), snippet_length)` in
`SimpleSnipper.generate_snippets` (src/src/historia-data/historia/data/core/snipper.py,
lines 24-27), with a structural fuel that is kept at least the list length
(`k ≥ 1` drops at least one element per step).  Python's `range` raises for
step 0, so `k = 0` is outside the modelled domain and returns `[]`. -/
def simpleChunksF (k : Nat) : Nat → List α → List (List α)
  | 0, _ => []
  | _, [] => []
  | fuel + 1, a :: l =>
    if k = 0 then [] else (a :: l).take k :: simpleChunksF k fuel ((a :: l).drop k)

def simpleChunks (k : Nat) (l : List α) : List (List α) :=
  simpleChunksF k l.length l

namespace SimpleSnipper

/-- `SimpleSnipper.generate_snippets` (snipper.py lines 20-27): split content
into words, group into chunks of `snippet_length` words, join each chunk with
single spaces, yield only non-empty snippets. -/
def generate_snippets (snippet_length : Nat) (content : List Char) : List (List Char) :=
  ((simpleChunks snippet_length (pySplit content)).map
      (fun chunk => List.intercalate [' '] chunk)).filter (fun s => s ≠ [])

end SimpleSnipper

/-- Python `text.strip()`: remove leading and trailing whitespace. -/
def pyStrip (l : List Char) : List Char :=
  ((l.dropWhile isPySpace).reverse.dropWhile isPySpace).reverse

/-- Python `text.rfind(" ")` on a character list: index of the last space,
`none` when there is no space (Python returns -1). -/
def rfindChar (c : Char) : List Char → Option Nat
  | [] => none
  | a :: l =>
    match rfindChar c l with
    | some i => some (i + 1)
    | none => if a = c then some 0 else none

/-- The two-character slice `text[i:i+2]` (shorter near the end of the
string, exactly as in Python). -/
def sub2 (text : List Char) (i : Nat) : List Char :=
  (text.drop i).take 2

/-- `text[i:i+2] in [". ", "! ", "? "]` from `_find_sentence_boundary`. -/
def isEnding2 (text : List Char) (i : Nat) : Bool :=
  sub2 text i = ['.', ' '] || sub2 text i = ['!', ' '] || sub2 text i = ['?', ' ']

/-- Python `content.find(pat, start, stop)` for a two-character pattern:
the least `i ≥ start` with `i + 2 ≤ min stop content.length` at which the
pattern occurs, `none` when there is none (Python returns -1). -/
def pyFindSub2 (content : List Char) (c1 c2 : Char) (start stop : Nat) : Option Nat :=
  let m := min stop content.length
  (List.range' start (m - 1 - start)).find? (fun i => sub2 content i = [c1, c2])

/-- `BasicParagraphSnipper._find_sentence_boundary` (snipper.py lines 37-56).
The scanning loop returns at the FIRST sentence ending found: every hit at
index `i ≥ min_pos` sets `best_pos = i + 2 > min_pos`, so the guarded early
return always fires; the loop is therefore the first index in
`[min_pos, min(max_pos, len(text)))` whose two-character slice is an ending.
The Python guard `max_pos - 1 >= min_pos` on signed integers is
`min_pos + 1 ≤ max_pos`.  With no ending found, `best_pos` stays 0 unless the
`rfind(" ")` result is strictly positive, and the final line returns
`best_pos` whenever `best_pos ≥ min_pos` (else `max_pos`). -/
def find_sentence_boundary (text : List Char) (max_pos : Nat) (min_pos : Nat := 0) : Nat :=
  match (List.range' min_pos (min max_pos text.length - min_pos)).find?
      (fun i => isEnding2 text i) with
  | some i => i + 2
  | none =>
    let best_pos : Nat :=
      if min_pos + 1 ≤ max_pos then
        match rfindChar ' ' ((text.drop min_pos).take (max_pos - min_pos)) with
        | some sp => if 0 < sp then min_pos + sp + 1 else 0
        | none => 0
      else 0
    if min_pos ≤ best_pos then best_pos else max_pos

/-- `BasicParagraphSnipper` (snipper.py lines 30-36): `min_tokens` defaults to
`max_tokens // 2`. -/
structure BasicParagraphSnipper where
  max_tokens : Nat
  min_tokens : Nat

/-- The `__init__` of `BasicParagraphSnipper` with `min_tokens = None`. -/
def BasicParagraphSnipper.ofMax (max_tokens : Nat) : BasicParagraphSnipper :=
  ⟨max_tokens, max_tokens / 2⟩

/-- One `while` loop of `BasicParagraphSnipper.generate_snippets`
(snipper.py lines 58-82), run with explicit fuel: each loop iteration
consumes one unit of fuel, and `none` means the loop did not finish within
the given fuel (the generator, fully consumed, would still be looping).
`content[current_pos:next_para]` is `(content.drop pos).take (np - pos)`;
`content[current_pos : current_pos + next_pos]` is
`(content.drop pos).take np`. -/
def BasicParagraphSnipper.generateSnippetsFuel (s : BasicParagraphSnipper)
    (content : List Char) : Nat → Nat → Option (List (List Char))
  | 0, _ => none
  | fuel + 1, pos =>
    if pos < content.length then
      match pyFindSub2 content '\n' '\n' pos (pos + s.max_tokens) with
      | some np =>
        let snip := pyStrip ((content.drop pos).take (np - pos))
        match generateSnippetsFuel s content fuel (np + 2) with
        | none => none
        | some rest =>
          some (if snip ≠ [] ∧ s.min_tokens ≤ (pySplit snip).length
                then snip :: rest else rest)
      | none =>
        let np := find_sentence_boundary (content.drop pos) s.max_tokens 0
        let snip := pyStrip ((content.drop pos).take np)
        match generateSnippetsFuel s content fuel (pos + np) with
        | none => none
        | some rest =>
          some (if snip ≠ [] ∧ s.min_tokens ≤ (pySplit snip).length
                then snip :: rest else rest)
    else some []

/-! ## Data model

`TextDocument` (core/base.py lines 9-14): title, content, metadata, url.
URLs of the wikipedia source are `PAGE_ID_URL_BASE + pageid` and are in
bijection with page ids, so identifiers are modelled as the `Nat` page id.
The metadata dict is the opaque payload `{"url": url}`; it is modelled as the
decimal digits of the url. -/

structure TextDocument where
  title : List Char
  content : List Char
  metadata : List Char
  url : Nat
deriving DecidableEq, Repr

/-- The metadata `{"url": url}` set by `urls_to_text_documents`. -/
def metaOfUrl (u : Nat) : List Char :=
  Nat.toDigits 10 u

/-- A persisted `WikipediaDocument` row (models.py lines 5-14): `url` carries
a UNIQUE constraint; `title`, `content`, `metadata` are the mutable fields. -/
structure DBRecord where
  url : Nat
  title : List Char
  content : List Char
  metadata : List Char
deriving DecidableEq, Repr

/-- Django's `Model.objects.update_or_create(url=..., defaults=...)`: the row
with this (unique) url is updated in place if present, otherwise a new row is
appended.  Under the unique-url invariant the `map` touches at most one row. -/
def update_or_create (db : List DBRecord) (url : Nat)
    (title content metadata : List Char) : List DBRecord :=
  if db.any (fun r => r.url = url) then
    db.map (fun r =>
      if r.url = url then { r with title := title, content := content, metadata := metadata }
      else r)
  else db ++ [⟨url, title, content, metadata⟩]

/-- `WikipediaDataSource.write_documents_to_database` (wikipedia.py lines
109-125): inside one `transaction.atomic()` block, `update_or_create` each
document keyed by its url.  `rowFail` injects a database error for a given
document (an exception escaping the block); Django then rolls the whole
transaction back, so the caller's database is the unmodified one — modelled
by returning `Except.error` carrying no partial state. -/
def write_documents_to_database (rowFail : TextDocument → Option String)
    (db : List DBRecord) : List TextDocument → Except String (List DBRecord)
  | [] => .ok db
  | doc :: rest =>
    match rowFail doc with
    | some e => .error e
    | none =>
      write_documents_to_database rowFail
        (update_or_create db doc.url doc.title doc.content doc.metadata) rest

/-! ## Index-side state

`Index`, `Embedding`, `IndexedDocumentSnippet` rows (models.py lines 17-34).
The snippet table carries `unique_together = ("index", "document", "snippet")`;
inserting a duplicate triple raises an IntegrityError.  Document identity is
its unique url; index identity is its unique name; an embedding row's id is
its position in the embeddings table.  Float vectors contain only the literal
0.0 in the modelled embedder, represented as `Int`. -/

structure IndexState where
  indexes : List (List Char × Nat)
  embeddings : List (List Int × Nat)
  snippets : List (List Char × Nat × List Char × Nat)
deriving DecidableEq, Repr

def emptyIndexState : IndexState := ⟨[], [], []⟩

/-- `DummyEmbedder.embed` (embedder.py lines 17-22) on a list of texts:
`[[0.0] * 768] * len(texts)`. -/
def DummyEmbedder.embed (texts : List (List Char)) : List (List Int) :=
  texts.map (fun _ => List.replicate 768 0)

/-- The inner loop of `index_documents` (wikipedia.py lines 150-156): for each
(snippet, embedding) pair create an `Embedding` row, then create an
`IndexedDocumentSnippet` row; the latter raises an IntegrityError when the
(index, document, snippet) triple already exists. -/
def indexInsertLoop (index_name : List Char) (docUrl : Nat) :
    List (List Char × List Int) → IndexState → Except String IndexState
  | [], st => .ok st
  | (snip, emb) :: rest, st =>
    let embId := st.embeddings.length
    let st1 : IndexState := { st with embeddings := st.embeddings ++ [(emb, emb.length)] }
    if st1.snippets.any (fun r => r.1 = index_name && r.2.1 = docUrl && r.2.2.1 = snip) then
      .error "IntegrityError: duplicate key (index, document, snippet)"
    else
      indexInsertLoop index_name docUrl rest
        { st1 with snippets := st1.snippets ++ [(index_name, docUrl, snip, embId)] }

/-- The per-document loop of `index_documents` (wikipedia.py lines 149-156):
snippets are generated, embedded in one batch call, then inserted. -/
def indexDocsLoop (index_name : List Char) (snipF : List Char → List (List Char))
    (embedF : List (List Char) → List (List Int)) :
    List DBRecord → IndexState → Except String IndexState
  | [], st => .ok st
  | d :: rest, st =>
    let snippets := snipF d.content
    let embeddings := embedF snippets
    match indexInsertLoop index_name d.url (snippets.zip embeddings) st with
    | .error e => .error e
    | .ok st1 => indexDocsLoop index_name snipF embedF rest st1

/-- `WikipediaDataSource.index_documents` (wikipedia.py lines 127-156):
`Index.objects.get_or_create(name=index_name, defaults={"dimensions": 768})`
runs BEFORE the `transaction.atomic()` block, so a created index row survives
a failing insert; the snippet/embedding inserts are rolled back together when
any of them raises.  Returns the resulting state and the error, if any. -/
def index_documents (documents : List DBRecord) (index_name : List Char)
    (snipF : List Char → List (List Char))
    (embedF : List (List Char) → List (List Int))
    (st : IndexState) : IndexState × Option String :=
  let st1 : IndexState :=
    if st.indexes.any (fun p => p.1 = index_name) then st
    else { st with indexes := st.indexes ++ [(index_name, 768)] }
  match indexDocsLoop index_name snipF embedF documents st1 with
  | .ok st2 => (st2, none)
  | .error e => (st1, some e)

/-! ## Wikipedia data source

`generate_urls` / `urls_to_text_documents` (wikipedia.py lines 53-107).
A category member is a MAIN-namespace page (with pageid, title, text and an
`exists()` flag), a CATEGORY-namespace member carrying sub-members, or a
member of any other namespace (skipped by both branches of the code). -/

inductive WikiMember where
  | page (pageid : Nat) (title text : List Char) (present : Bool)
  | cat (members : List WikiMember)
  | other
deriving Repr

/-- The repository state visible to discovery: persisted wikipedia documents
as (url key, content) pairs; the dedup check
`existing_doc and existing_doc.content == c.text` (wikipedia.py lines 63-64). -/
def keepPage (repo : List (Nat × List Char)) (pid : Nat) (text : List Char) : Bool :=
  match repo.find? (fun r => r.1 = pid) with
  | some r => !(r.2 = text)
  | none => true

/-- `get_categorymembers` (wikipedia.py lines 56-78): MAIN-namespace members
that exist and pass the dedup check are collected (with title and text, which
the source also stores into the `page_url_to_content` cache); CATEGORY
members are recursed into while `level < max_level`.  The Python `results`
set is modelled as a list in iteration order. -/
def get_categorymembers (repo : List (Nat × List Char)) (level max_level : Nat) :
    List WikiMember → List (Nat × List Char × List Char)
  | [] => []
  | .page pid title text present :: rest =>
    (if present && keepPage repo pid text then [(pid, title, text)] else []) ++
      get_categorymembers repo level max_level rest
  | .cat ms :: rest =>
    (if level < max_level then get_categorymembers repo (level + 1) max_level ms
     else []) ++
      get_categorymembers repo level max_level rest
  | .other :: rest => get_categorymembers repo level max_level rest

namespace WikipediaDataSource

/-- `WikipediaDataSource.generate_urls` (wikipedia.py lines 53-90): each
configured category's members are processed with `get_categorymembers`
(level 0, max_level 1) and the per-category url lists are flattened.  The
first component is the returned url list; the second is the set of entries
written into the process-wide `page_url_to_content` cache as a side effect.
The `use_all` parameter is accepted and — exactly as in the source — never
read: no branch of the body depends on it. -/
def generate_urls (repo : List (Nat × List Char))
    (categories : List (List WikiMember)) (use_all : Bool) :
    List Nat × List (Nat × List Char × List Char) :=
  let pages := (categories.map (fun ms => get_categorymembers repo 0 1 ms)).flatten
  (pages.map (fun p => p.1), pages)

/-- `WikipediaDataSource.urls_to_text_documents` (wikipedia.py lines 92-107):
each url is resolved ONLY through the `page_url_to_content` cache
(`title, content = page_url_to_content[url]`); a url absent from the cache
raises a KeyError, which `ThreadPoolExecutor.map` re-raises when the result
set is collected, failing the whole call. -/
def urls_to_text_documents (cache : List (Nat × List Char × List Char)) :
    List Nat → Except String (List TextDocument)
  | [] => .ok []
  | u :: rest =>
    match cache.find? (fun p => p.1 = u) with
    | none => .error ("KeyError: " ++ toString u)
    | some p =>
      match urls_to_text_documents cache rest with
      | .error e => .error e
      | .ok docs => .ok (⟨p.2.1, p.2.2, metaOfUrl u, u⟩ :: docs)

end WikipediaDataSource

/-- Spec-side comparison set for the `use_all = true` contract: the full
candidate identifier set of the corpus — every existing MAIN-namespace page
reachable by the same category traversal, with NO dedup against the
repository ("returns the full candidate set regardless of existing state"). -/
def allMainPages (level max_level : Nat) : List WikiMember → List Nat
  | [] => []
  | .page pid _ _ present :: rest =>
    (if present then [pid] else []) ++ allMainPages level max_level rest
  | .cat ms :: rest =>
    (if level < max_level then allMainPages (level + 1) max_level ms else []) ++
      allMainPages level max_level rest
  | .other :: rest => allMainPages level max_level rest

/-- The full candidate set over all configured categories (spec-side). -/
def fullCandidateSet (categories : List (List WikiMember)) : List Nat :=
  (categories.map (fun ms => allMainPages 0 1 ms)).flatten

/-! ## Pipeline configuration phase

`PipelineEntryPoint` (data/__init__.py lines 98-199): the three registries
each hold exactly one entry; the configuration dict is modelled with the keys
the code reads.  Python truthiness of a string (`if not name`) makes `None`
and `""` equivalent failures. -/

def DATA_SOURCE_REGISTRY : List String := ["wikipedia"]
def SNIPPER_REGISTRY : List String := ["simple"]
def EMBEDDER_REGISTRY : List String := ["dummy"]

/-- Attributes of `historia.indexing.models` resolvable by
`getattr(models, document_data_model)` (models.py). -/
def MODELS_ATTRS : List String :=
  ["Document", "WikipediaDocument", "Index", "Embedding", "IndexedDocumentSnippet"]

structure PipelineConfig where
  data_source : Option String
  data_source_categories : List String
  snipper_type : Option String
  snipper_snippet_length : Nat := 300
  embedder_type : Option String
  index_name : Option String
  document_data_model : Option String := none
deriving Repr

/-- The distinct exceptions the configuration phase can raise. -/
inductive ConfigError where
  | unknownDataSource
  | dataSourceParams
  | unknownSnipper
  | unknownEmbedder
  | badDocumentModel
  | missingIndexName
deriving DecidableEq, Repr

/-- `initialize_data_source` (__init__.py lines 134-142) followed by the
`WikipediaDataSource` constructor (wikipedia.py lines 38-51), which raises
`ValueError` when no categories are configured. -/
def initialize_data_source (c : PipelineConfig) : Except ConfigError Unit :=
  match c.data_source with
  | none => .error .unknownDataSource
  | some n =>
    if n = "" ∨ ¬ DATA_SOURCE_REGISTRY.contains n then .error .unknownDataSource
    else if c.data_source_categories = [] then .error .dataSourceParams
    else .ok ()

/-- `initialize_snipper` (__init__.py lines 144-153). -/
def initialize_snipper (c : PipelineConfig) : Except ConfigError Unit :=
  match c.snipper_type with
  | none => .error .unknownSnipper
  | some n =>
    if n = "" ∨ ¬ SNIPPER_REGISTRY.contains n then .error .unknownSnipper else .ok ()

/-- `initialize_embedder` (__init__.py lines 155-164). -/
def initialize_embedder (c : PipelineConfig) : Except ConfigError Unit :=
  match c.embedder_type with
  | none => .error .unknownEmbedder
  | some n =>
    if n = "" ∨ ¬ EMBEDDER_REGISTRY.contains n then .error .unknownEmbedder else .ok ()

/-- `get_document_data_model` (__init__.py lines 172-174):
`getattr(models, config.get("document_data_model", "Document"))`, an
AttributeError when the name does not resolve. -/
def get_document_data_model (c : PipelineConfig) : Except ConfigError Unit :=
  if MODELS_ATTRS.contains (c.document_data_model.getD "Document") then .ok ()
  else .error .badDocumentModel

/-- The configuration prefix shared verbatim by `BeamEntryPoint.run_pipeline`
(lines 189-199) and `DirectEntryPoint.run_pipeline` (lines 275-285): data
source, snipper, embedder, document data model are initialized in this order,
then `if not index_name: raise`.  The first failing step raises; nothing
after it runs. -/
def config_phase (c : PipelineConfig) : Except ConfigError Unit :=
  match initialize_data_source c with
  | .error e => .error e
  | .ok _ =>
    match initialize_snipper c with
    | .error e => .error e
    | .ok _ =>
      match initialize_embedder c with
      | .error e => .error e
      | .ok _ =>
        match get_document_data_model c with
        | .error e => .error e
        | .ok _ =>
          match c.index_name with
          | none => .error .missingIndexName
          | some s => if s = "" then .error .missingIndexName else .ok ()

/-! ## Sequential (direct) runner

`DirectEntryPoint.run_pipeline` (__init__.py lines 272-351).  The corpus and
database collaborators are passed as functions: `fetch` is
`urls_to_text_documents([url])` for one url, `rowFail` injects database
errors into the persist stage.  `writeCalls` / `indexCalls` record the urls
for which the persist / index stage was entered (the stage executed, whether
or not it then failed). -/

structure DirectOutcome where
  db : List DBRecord
  ix : IndexState
  url_failures : List (Nat × String)
  db_failures : List (Nat × String)
  index_failures : List (Nat × String)
  writeCalls : List Nat
  indexCalls : List Nat
deriving DecidableEq, Repr

def initialOutcome (db : List DBRecord) (ix : IndexState) : DirectOutcome :=
  ⟨db, ix, [], [], [], [], []⟩

/-- The `for doc in docs` body (__init__.py lines 314-334): write the
document (its own transaction), on success re-read the persisted records for
`doc.url` (`get_documents_to_index([doc.url], document_data_model)`,
modelled for a run configured with `document_data_model = WikipediaDocument`
— the persisted model that has the `url` field being filtered on) and index
them; a write failure is recorded under `db_failures` and skips indexing; an
index failure is recorded under `index_failures`.  After a failed `index_documents` the
index row created before the transaction survives (first component of its
result). -/
def processDocs (rowFail : TextDocument → Option String) (indexName : List Char)
    (snipF : List Char → List (List Char))
    (embedF : List (List Char) → List (List Int)) :
    List TextDocument → DirectOutcome → DirectOutcome
  | [], o => o
  | doc :: rest, o =>
    let o1 : DirectOutcome := { o with writeCalls := o.writeCalls ++ [doc.url] }
    match write_documents_to_database rowFail o.db [doc] with
    | .error e =>
      processDocs rowFail indexName snipF embedF rest
        { o1 with db_failures := o1.db_failures ++ [(doc.url, e)] }
    | .ok db1 =>
      let o2 : DirectOutcome :=
        { o1 with db := db1, indexCalls := o1.indexCalls ++ [doc.url] }
      let documents_to_index := db1.filter (fun r => r.url = doc.url)
      match index_documents documents_to_index indexName snipF embedF o2.ix with
      | (ix1, none) =>
        processDocs rowFail indexName snipF embedF rest { o2 with ix := ix1 }
      | (ix1, some e) =>
        processDocs rowFail indexName snipF embedF rest
          { o2 with ix := ix1,
                    index_failures := o2.index_failures ++ [(doc.url, e)] }

/-- The `for url in urls` body (__init__.py lines 307-341): a fetch failure
is recorded under `url_failures` and processing continues with the next url. -/
def processUrl (fetch : Nat → Except String (List TextDocument))
    (rowFail : TextDocument → Option String) (indexName : List Char)
    (snipF : List Char → List (List Char))
    (embedF : List (List Char) → List (List Int))
    (o : DirectOutcome) (url : Nat) : DirectOutcome :=
  match fetch url with
  | .error e => { o with url_failures := o.url_failures ++ [(url, e)] }
  | .ok docs => processDocs rowFail indexName snipF embedF docs o

/-- The sequential stage loop over all discovered urls. -/
def direct_run (fetch : Nat → Except String (List TextDocument))
    (rowFail : TextDocument → Option String) (indexName : List Char)
    (snipF : List Char → List (List Char))
    (embedF : List (List Char) → List (List Int))
    (urls : List Nat) (o : DirectOutcome) : DirectOutcome :=
  urls.foldl (processUrl fetch rowFail indexName snipF embedF) o

/-- `handle_failures` (__init__.py lines 166-170): a non-empty failure list
for a stage is turned into one callback invocation carrying the stage name,
the failed urls (first components), and an error built from the FIRST
failure's message. -/
structure FailureReport where
  step : String
  failed_urls : List Nat
  error : String
deriving DecidableEq, Repr

def handle_failures (failures : List (Nat × String)) (step : String) :
    Option FailureReport :=
  match failures with
  | [] => none
  | (_, msg) :: _ =>
    some ⟨step, failures.map (fun f => f.1), "Failed during " ++ step ++ ": " ++ msg⟩

/-- An exception escaping `run_pipeline`: either one of the configuration
exceptions or an exception from the discovery stage
(`data_source.generate_urls`, called outside any try block). -/
inductive RunError where
  | config (e : ConfigError)
  | discovery (msg : String)
  | fatal (msg : String)
deriving DecidableEq, Repr

/-- `DirectEntryPoint.run_pipeline` (__init__.py lines 275-351): the
configuration phase, then `generate_urls` — called twice on success (once to
count, once to regenerate, lines 302-304) and once when it raises — then the
sequential loop.  The second component counts the `generate_urls`
invocations performed. -/
def run_pipeline_direct (c : PipelineConfig)
    (genUrls : Except String (List Nat))
    (fetch : Nat → Except String (List TextDocument))
    (rowFail : TextDocument → Option String)
    (db : List DBRecord) (ix : IndexState) :
    Except RunError DirectOutcome × Nat :=
  match config_phase c with
  | .error e => (.error (.config e), 0)
  | .ok _ =>
    match genUrls with
    | .error e => (.error (.discovery e), 1)
    | .ok urls =>
      (.ok (direct_run fetch rowFail ((c.index_name.getD "").toList)
        (SimpleSnipper.generate_snippets c.snipper_snippet_length)
        DummyEmbedder.embed urls (initialOutcome db ix)), 2)

/-- `historia.data.__main__.main` (lines 36-39): the selected entry point's
`run_pipeline` is invoked EXACTLY ONCE inside a try/except that prints the
error; no retry loop exists anywhere in the package, and the `max_retries`
value stored by `PipelineEntryPoint.__init__` (line 117) is never read.  The
first component is the number of whole-run attempts made (the single
`run_pipeline` call); `max_retries` is carried to mirror the constructor. -/
def main_invoke (max_retries : Nat) (c : PipelineConfig)
    (genUrls : Except String (List Nat))
    (fetch : Nat → Except String (List TextDocument))
    (rowFail : TextDocument → Option String)
    (db : List DBRecord) (ix : IndexState) :
    Nat × Nat × Except RunError DirectOutcome :=
  let (res, genCalls) := run_pipeline_direct c genUrls fetch rowFail db ix
  (1, genCalls, res)

/-! ## Parallel (Beam) runner

`BeamEntryPoint.run_pipeline` (__init__.py lines 186-269).  Discovery, fetch
(`UrlToDocumentFn`, per-url tagged success/failure) and persist
(`WriteToDBFn`, per-document tagged success/failure) are modelled in list
order.  The pre-index step
`beam.Map(lambda x: self.get_documents_to_index(x))` (line 237) invokes the
two-parameter method `get_documents_to_index(urls, document_data_model)`
(line 177) with a SINGLE argument: on the first element it raises
`TypeError: get_documents_to_index() missing 1 required positional argument`,
the exception is not caught by any tagged branch, the Beam pipeline fails and
`with beam.Pipeline(...)` re-raises it — so any successfully written
document aborts the run before indexing.  (Independently, `IndexDocumentFn`
(lines 75-95) would call `index_documents(index_name, snipper, embedder)`
without the `documents` argument that `WikipediaDataSource.index_documents`
(line 142) requires.)  Downstream steps of the empty-input case are not
modelled; no claim is evaluated there. -/

structure BeamOutcome where
  db : List DBRecord
  url_failures : List (Nat × String)
  db_failures : List (Nat × String)
deriving DecidableEq, Repr

/-- The `WriteToDBFn` fan-out: each document is written in its own call
(its own transaction); successes and tagged failures are collected. -/
def beamWriteStage (rowFail : TextDocument → Option String) :
    List TextDocument → List DBRecord →
    List DBRecord × List TextDocument × List (Nat × String)
  | [], db => (db, [], [])
  | doc :: rest, db =>
    match write_documents_to_database rowFail db [doc] with
    | .error e =>
      let (db1, succ, fails) := beamWriteStage rowFail rest db
      (db1, succ, (doc.url, e) :: fails)
    | .ok db1 =>
      let (db2, succ, fails) := beamWriteStage rowFail rest db1
      (db2, doc :: succ, fails)

def beam_run (c : PipelineConfig)
    (genUrls : Except String (List Nat))
    (fetch : Nat → Except String (List TextDocument))
    (rowFail : TextDocument → Option String)
    (db : List DBRecord) :
    Except RunError BeamOutcome :=
  match config_phase c with
  | .error e => .error (.config e)
  | .ok _ =>
    match genUrls with
    | .error e => .error (.discovery e)
    | .ok urls =>
      let fetched := urls.map (fun u => (u, fetch u))
      let docs := (fetched.filterMap (fun p =>
        match p.2 with | .ok ds => some ds | .error _ => none)).flatten
      let url_failures := fetched.filterMap (fun p =>
        match p.2 with | .error e => some (p.1, e) | .ok _ => none)
      let (db1, written, db_failures) := beamWriteStage rowFail docs db
      if written.isEmpty then .ok ⟨db1, url_failures, db_failures⟩
      else .error (.fatal
        "TypeError: get_documents_to_index missing 1 required positional argument")

/-- Decidable equality for `Except`, used to settle concrete runs. -/
instance {ε α : Type} [DecidableEq ε] [DecidableEq α] : DecidableEq (Except ε α)
  | .ok a, .ok b =>
    match decEq a b with
    | isTrue h => isTrue (h ▸ rfl)
    | isFalse h => isFalse (fun hh => h (Except.ok.inj hh))
  | .error a, .error b =>
    match decEq a b with
    | isTrue h => isTrue (h ▸ rfl)
    | isFalse h => isFalse (fun hh => h (Except.error.inj hh))
  | .ok _, .error _ => isFalse (fun hh => Except.noConfusion hh)
  | .error _, .ok _ => isFalse (fun hh => Except.noConfusion hh)

/-! ## Concrete scenario used by several theorems -/

/-- A fully valid configuration: registered data source, snipper and
embedder, non-empty categories and index name.  `document_data_model` is set
to `WikipediaDocument`, the persisted model that carries the `url` field the
pre-index lookup filters on (the source's default, `Document`, has no `url`
field, so Django would reject the `url__in` filter for it). -/
def sampleConfig : PipelineConfig :=
  { data_source := some "wikipedia", data_source_categories := ["Physics"],
    snipper_type := some "simple", embedder_type := some "dummy",
    index_name := some "idx",
    document_data_model := some "WikipediaDocument" }

/-- A one-page `page_url_to_content` cache: url 1 with title "t", text "a". -/
def sampleCache : List (Nat × List Char × List Char) := [(1, ['t'], ['a'])]

/-- The fetch stage over `sampleCache`, one url per call exactly as both
runners invoke `urls_to_text_documents([url])`. -/
def sampleFetch : Nat → Except String (List TextDocument) :=
  fun u => WikipediaDataSource.urls_to_text_documents sampleCache [u]

/-! ## Claim theorems -/

/-- C1: the claim says a run whose `generate_urls` always raises is attempted
exactly `max_retries` (default 3) times before the fatal error surfaces.  In
the code, `main` invokes `run_pipeline` exactly once inside a try/except and
no retry loop exists; `max_retries` (stored by `PipelineEntryPoint.__init__`)
is never read.  For every failing discovery the run is attempted once — the
attempt counter is 1, `generate_urls` is invoked once, no stage past
discovery runs (no outcome is produced) — and 1 ≠ 3. -/
theorem C1_run_attempted_once_not_max_retries :
    (∀ (mr : Nat) (e : String) (fetch : Nat → Except String (List TextDocument))
       (rowFail : TextDocument → Option String) (db : List DBRecord) (ix : IndexState),
       main_invoke mr sampleConfig (.error e) fetch rowFail db ix
         = (1, 1, .error (.discovery e))) ∧ (1 : Nat) ≠ 3 :=
  ⟨fun _ _ _ _ _ _ => rfl, by decide⟩

set_option maxRecDepth 40000 in
/-- C2: the claim says the parallel (Beam) runner and the sequential runner
produce the same successfully processed set with equivalent failure
semantics.  On a corpus of one fetchable, persistable url the sequential
runner persists and indexes the document with zero failures, while the Beam
runner aborts before indexing anything: its pre-index
`beam.Map(lambda x: self.get_documents_to_index(x))` calls the
two-parameter method with one argument, a TypeError no tagged branch
catches (its `IndexDocumentFn` likewise drops the `documents` argument of
`index_documents`). -/
theorem C2_beam_and_direct_runners_diverge :
    (run_pipeline_direct sampleConfig (.ok [1]) sampleFetch (fun _ => none)
        [] emptyIndexState).1
      = .ok ⟨[⟨1, ['t'], ['a'], ['1']⟩],
             ⟨[(['i', 'd', 'x'], 768)], [(List.replicate 768 0, 768)],
              [(['i', 'd', 'x'], 1, ['a'], 0)]⟩,
             [], [], [], [1], [1]⟩ ∧
    beam_run sampleConfig (.ok [1]) sampleFetch (fun _ => none) []
      = .error (.fatal
          "TypeError: get_documents_to_index missing 1 required positional argument") :=
  ⟨by decide, by decide⟩

/-- C3: the claim says `generate_snippets` terminates for every content and
every `max_tokens > 0`, in particular that content with no paragraph break,
no sentence terminator and no whitespace is cut at exactly `max_tokens`.  On
content "abc" (with the default `max_tokens = 200`) `_find_sentence_boundary`
finds no ending and no space, leaves `best_pos = 0`, and its final line
returns `best_pos` because `0 ≥ min_pos = 0` — so the cursor advances by
zero and the while loop never terminates: no amount of fuel completes it. -/
theorem C3_paragraph_snipper_does_not_terminate :
    find_sentence_boundary ['a', 'b', 'c'] 200 0 = 0 ∧
    ∀ fuel, (BasicParagraphSnipper.ofMax 200).generateSnippetsFuel
        ['a', 'b', 'c'] fuel 0 = none := by
  refine ⟨by decide, fun fuel => ?_⟩
  induction fuel with
  | zero => rfl
  | succ n ih =>
    have step : (BasicParagraphSnipper.ofMax 200).generateSnippetsFuel
        ['a', 'b', 'c'] (n + 1) 0
        = match (BasicParagraphSnipper.ofMax 200).generateSnippetsFuel
            ['a', 'b', 'c'] n 0 with
          | none => none
          | some rest => some rest := rfl
    rw [step, ih]

/-- C5: the claim says `generate_urls` with `use_all = true` returns the full
candidate set regardless of repository state.  In the code the `use_all`
parameter is never read, so the content-equality dedup always applies: the
result is independent of `use_all`, and for a corpus of one existing MAIN
page (id 1, text "x") already persisted with identical content, the call
with `use_all = true` returns `[]` while the full candidate set is `[1]`
(and is returned when the repository is empty). -/
theorem C5_use_all_is_ignored :
    (∀ (repo : List (Nat × List Char)) (cats : List (List WikiMember)) (a b : Bool),
       WikipediaDataSource.generate_urls repo cats a
         = WikipediaDataSource.generate_urls repo cats b) ∧
    (WikipediaDataSource.generate_urls [(1, ['x'])]
        [[.page 1 ['t'] ['x'] true]] true).1 = [] ∧
    fullCandidateSet [[.page 1 ['t'] ['x'] true]] = [1] ∧
    (WikipediaDataSource.generate_urls []
        [[.page 1 ['t'] ['x'] true]] true).1 = [1] := by
  refine ⟨fun _ _ _ _ => rfl, ?_, ?_, ?_⟩ <;>
    simp [WikipediaDataSource.generate_urls, get_categorymembers, keepPage,
      fullCandidateSet, allMainPages, List.find?]

/-- The document used by the C7 counterexample: url 1, content "a". -/
def doc7 : DBRecord := ⟨1, ['t'], ['a'], []⟩

set_option maxRecDepth 40000 in
/-- C7 counterexample: the claim says the second indexing of an
already-indexed snippet does not abort the operation.  `index_documents`
inserts with `create` (not `get_or_create`), so the second call hits the
`unique_together` constraint on (index, document, snippet): it raises an
IntegrityError — the operation aborts (its transaction rolled back). -/
theorem C7_second_indexing_aborts :
    (index_documents [doc7] ['i'] (SimpleSnipper.generate_snippets 1)
        DummyEmbedder.embed
        (index_documents [doc7] ['i'] (SimpleSnipper.generate_snippets 1)
            DummyEmbedder.embed emptyIndexState).1).2
      = some "IntegrityError: duplicate key (index, document, snippet)" := by
  decide

/-- C10: `urls_to_text_documents` resolves a url ONLY through the
`page_url_to_content` cache: a url absent from the cache raises a KeyError
(first conjunct); inside the sequential runner this KeyError is recorded as
a fetch failure for that url and processing continues (second conjunct); and
the cache keys populated as a side effect of `generate_urls` are exactly the
urls it discovers (third conjunct). -/
theorem C10_fetch_resolves_only_cached_urls
    (cache : List (Nat × List Char × List Char)) (url : Nat)
    (h : cache.find? (fun p => p.1 = url) = none) :
    WikipediaDataSource.urls_to_text_documents cache [url]
      = .error ("KeyError: " ++ toString url) ∧
    (∀ (rowFail : TextDocument → Option String) (indexName : List Char)
       (snipF : List Char → List (List Char))
       (embedF : List (List Char) → List (List Int)) (o : DirectOutcome),
       processUrl (fun u => WikipediaDataSource.urls_to_text_documents cache [u])
           rowFail indexName snipF embedF o url
         = { o with url_failures :=
               o.url_failures ++ [(url, "KeyError: " ++ toString url)] }) ∧
    (∀ (repo : List (Nat × List Char)) (cats : List (List WikiMember))
       (use_all : Bool),
       (WikipediaDataSource.generate_urls repo cats use_all).2.map (fun p => p.1)
         = (WikipediaDataSource.generate_urls repo cats use_all).1) := by
  have h1 : WikipediaDataSource.urls_to_text_documents cache [url]
      = .error ("KeyError: " ++ toString url) := by
    simp [WikipediaDataSource.urls_to_text_documents, h]
  exact ⟨h1, fun rowFail iN sF eF o => by simp [processUrl, h1],
    fun repo cats ua => rfl⟩

/-- Witness for C10 at the empty cache and url 7. -/
theorem C10_witness :
    (([] : List (Nat × List Char × List Char)).find? (fun p => p.1 = 7) = none) ∧
    WikipediaDataSource.urls_to_text_documents [] [7]
      = .error ("KeyError: " ++ toString 7) :=
  ⟨rfl, (C10_fetch_resolves_only_cached_urls [] 7 rfl).1⟩

/-! ## Persistence lemmas for the upsert claim -/

theorem filter_map_url (f : DBRecord → DBRecord) (hf : ∀ r, (f r).url = r.url)
    (u : Nat) (l : List DBRecord) :
    (l.map f).filter (fun r => r.url = u) = (l.filter (fun r => r.url = u)).map f := by
  induction l with
  | nil => rfl
  | cons a l ih =>
    by_cases h : a.url = u
    · simp [List.filter_cons, hf, h, ih]
    · simp [List.filter_cons, hf, h, ih]

/-- Under the unique-url constraint (at most one row per url),
`update_or_create` leaves exactly one row for the written url, carrying the
written field values. -/
theorem update_or_create_filter (db : List DBRecord) (u : Nat) (t c m : List Char)
    (h : (db.filter (fun r => r.url = u)).length ≤ 1) :
    (update_or_create db u t c m).filter (fun r => r.url = u)
      = [⟨u, t, c, m⟩] := by
  unfold update_or_create
  by_cases hany : db.any (fun r => r.url = u)
  · rw [if_pos hany]
    have hmem : ∃ r ∈ db, r.url = u := by simpa using hany
    obtain ⟨r0, hr0, hru⟩ := hmem
    have hf : ∀ r : DBRecord,
        ((if r.url = u then { r with title := t, content := c, metadata := m }
          else r) : DBRecord).url = r.url := by
      intro r; by_cases hr : r.url = u <;> simp [hr]
    rw [filter_map_url _ hf]
    have hr0f : r0 ∈ db.filter (fun r => r.url = u) := by
      simp [List.mem_filter, hr0, hru]
    have hlen1 : (db.filter (fun r => r.url = u)).length = 1 := by
      have : 0 < (db.filter (fun r => r.url = u)).length :=
        List.length_pos.mpr (List.ne_nil_of_mem hr0f)
      omega
    obtain ⟨a, ha⟩ := List.length_eq_one.mp hlen1
    have hau : a.url = u := by
      have : a ∈ db.filter (fun r => r.url = u) := by simp [ha]
      simpa using (List.mem_filter.mp this).2
    simp [ha, hau]
  · rw [if_neg hany]
    have hnil : db.filter (fun r => r.url = u) = [] := by
      rw [List.filter_eq_nil]
      intro r hr
      simp only [List.any_eq_true, not_exists] at hany
      intro hc
      exact hany r ⟨hr, by simpa using hc⟩
    simp [List.filter_append, hnil]

/-- A successful `write_documents_to_database` call commits exactly the fold
of the per-document upserts (all of them — nothing less). -/
theorem write_documents_ok_foldl (rowFail : TextDocument → Option String) :
    ∀ (docs : List TextDocument) (db db' : List DBRecord),
      write_documents_to_database rowFail db docs = .ok db' →
      db' = docs.foldl
        (fun d doc => update_or_create d doc.url doc.title doc.content doc.metadata) db := by
  intro docs
  induction docs with
  | nil =>
    intro db db' h
    simpa [write_documents_to_database] using (Except.ok.inj h).symm
  | cons d rest ih =>
    intro db db' h
    unfold write_documents_to_database at h
    cases hf : rowFail d with
    | some e => rw [hf] at h; exact absurd h (by simp)
    | none =>
      rw [hf] at h
      simpa using ih _ _ h

/-- A call containing any failing document commits nothing: the whole
transaction is rolled back and the error propagates. -/
theorem write_documents_error_of_rowFail (rowFail : TextDocument → Option String) :
    ∀ (docs : List TextDocument) (db : List DBRecord),
      (∃ doc ∈ docs, rowFail doc ≠ none) →
      ∃ e, write_documents_to_database rowFail db docs = .error e := by
  intro docs
  induction docs with
  | nil => intro db h; simp at h
  | cons d rest ih =>
    intro db h
    cases hf : rowFail d with
    | some e => exact ⟨e, by unfold write_documents_to_database; rw [hf]⟩
    | none =>
      obtain ⟨doc, hmem, hne⟩ := h
      rcases List.mem_cons.mp hmem with rfl | hmem2
      · exact absurd hf hne
      · obtain ⟨e, he⟩ := ih _ ⟨doc, hmem2, hne⟩
        exact ⟨e, by unfold write_documents_to_database; rw [hf]; exact he⟩

/-- C6: `write_documents_to_database` is an idempotent upsert keyed by url —
writing `d1` then `d2` with the same url leaves exactly one persisted record
for that url, carrying the second call's title, content and metadata — and
each single call is atomic: a successful call commits exactly the full fold
of its upserts, while a call with any failing row commits nothing and
returns the error. -/
theorem C6_idempotent_upsert (db : List DBRecord) (d1 d2 : TextDocument)
    (hurl : d1.url = d2.url)
    (hdb : (db.filter (fun r => r.url = d2.url)).length ≤ 1) :
    (∃ db1 db2,
       write_documents_to_database (fun _ => none) db [d1] = .ok db1 ∧
       write_documents_to_database (fun _ => none) db1 [d2] = .ok db2 ∧
       db2.filter (fun r => r.url = d2.url)
         = [⟨d2.url, d2.title, d2.content, d2.metadata⟩]) ∧
    (∀ (rowFail : TextDocument → Option String) (docs : List TextDocument),
       (∀ db', write_documents_to_database rowFail db docs = .ok db' →
          db' = docs.foldl
            (fun d doc =>
              update_or_create d doc.url doc.title doc.content doc.metadata) db) ∧
       ((∃ doc ∈ docs, rowFail doc ≠ none) →
          ∃ e, write_documents_to_database rowFail db docs = .error e)) := by
  constructor
  · refine ⟨update_or_create db d1.url d1.title d1.content d1.metadata,
      update_or_create (update_or_create db d1.url d1.title d1.content d1.metadata)
        d2.url d2.title d2.content d2.metadata, ?_, ?_, ?_⟩
    · simp [write_documents_to_database]
    · simp [write_documents_to_database]
    · have h1 : ((update_or_create db d1.url d1.title d1.content d1.metadata).filter
          (fun r => r.url = d2.url)).length ≤ 1 := by
        rw [← hurl] at hdb ⊢
        rw [update_or_create_filter db d1.url d1.title d1.content d1.metadata hdb]
        simp
      exact update_or_create_filter _ d2.url d2.title d2.content d2.metadata h1
  · intro rowFail docs
    exact ⟨fun db' h => write_documents_ok_foldl rowFail docs db db' h,
      fun h => write_documents_error_of_rowFail rowFail docs db h⟩

/-- Witness for C6: empty database, two documents sharing url 5. -/
theorem C6_witness :
    ((⟨['a'], ['b'], ['c'], 5⟩ : TextDocument).url
        = (⟨['d'], ['e'], ['f'], 5⟩ : TextDocument).url) ∧
    ((([] : List DBRecord).filter
        (fun r => r.url = (⟨['d'], ['e'], ['f'], 5⟩ : TextDocument).url)).length ≤ 1) ∧
    (∃ db1 db2,
       write_documents_to_database (fun _ => none) []
           [⟨['a'], ['b'], ['c'], 5⟩] = .ok db1 ∧
       write_documents_to_database (fun _ => none) db1
           [⟨['d'], ['e'], ['f'], 5⟩] = .ok db2 ∧
       db2.filter (fun r => r.url = 5) = [⟨5, ['d'], ['e'], ['f']⟩]) :=
  ⟨rfl, by decide,
    (C6_idempotent_upsert [] ⟨['a'], ['b'], ['c'], 5⟩ ⟨['d'], ['e'], ['f'], 5⟩
      rfl (by decide)).1⟩

/-! ## Uniqueness of indexed snippets -/

/-- The (index, document, snippet) key triples of the snippet table — the
columns covered by `unique_together`. -/
def indexedTriples (st : IndexState) : List (List Char × Nat × List Char) :=
  st.snippets.map (fun r => (r.1, r.2.1, r.2.2.1))

theorem triple_not_mem_of_any_false (st : IndexState) (iname : List Char)
    (docUrl : Nat) (snip : List Char)
    (h : st.snippets.any
        (fun r => r.1 = iname && r.2.1 = docUrl && r.2.2.1 = snip) = false) :
    (iname, docUrl, snip) ∉ indexedTriples st := by
  intro hmem
  obtain ⟨r, hr, heq⟩ := List.mem_map.mp hmem
  rw [List.any_eq_false] at h
  apply h r hr
  have h1 : r.1 = iname := congrArg Prod.fst heq
  have h23 := congrArg Prod.snd heq
  have h2 : r.2.1 = docUrl := congrArg Prod.fst h23
  have h3 : r.2.2.1 = snip := congrArg Prod.snd h23
  simp [h1, h2, h3]

theorem indexInsertLoop_nodup (iname : List Char) (docUrl : Nat) :
    ∀ (pairs : List (List Char × List Int)) (st st' : IndexState),
      (indexedTriples st).Nodup →
      indexInsertLoop iname docUrl pairs st = .ok st' →
      (indexedTriples st').Nodup := by
  intro pairs
  induction pairs with
  | nil =>
    intro st st' h heq
    unfold indexInsertLoop at heq
    rw [← Except.ok.inj heq]
    exact h
  | cons p rest ih =>
    intro st st' h heq
    unfold indexInsertLoop at heq
    by_cases hdup : ({ st with embeddings := st.embeddings ++ [(p.2, p.2.length)]
        } : IndexState).snippets.any
        (fun r => r.1 = iname && r.2.1 = docUrl && r.2.2.1 = p.1)
    · rw [if_pos hdup] at heq
      exact absurd heq (by simp)
    · rw [if_neg hdup] at heq
      apply ih _ _ _ heq
      have hdup2 : st.snippets.any
          (fun r => r.1 = iname && r.2.1 = docUrl && r.2.2.1 = p.1) = false :=
        Bool.eq_false_iff.mpr hdup
      have hnm : (iname, docUrl, p.1) ∉ indexedTriples st :=
        triple_not_mem_of_any_false _ _ _ _ hdup2
      simp only [indexedTriples, List.map_append] at h ⊢
      simp only [List.nodup_append, List.map_cons, List.map_nil]
      refine ⟨h, List.nodup_singleton _, ?_⟩
      intro x hx hx2
      simp only [List.mem_singleton] at hx2
      subst hx2
      exact hnm hx

theorem indexDocsLoop_nodup (iname : List Char)
    (snipF : List Char → List (List Char))
    (embedF : List (List Char) → List (List Int)) :
    ∀ (docs : List DBRecord) (st st' : IndexState),
      (indexedTriples st).Nodup →
      indexDocsLoop iname snipF embedF docs st = .ok st' →
      (indexedTriples st').Nodup := by
  intro docs
  induction docs with
  | nil =>
    intro st st' h heq
    unfold indexDocsLoop at heq
    rw [← Except.ok.inj heq]
    exact h
  | cons d rest ih =>
    intro st st' h heq
    rw [show indexDocsLoop iname snipF embedF (d :: rest) st
        = (match indexInsertLoop iname d.url ((snipF d.content).zip
              (embedF (snipF d.content))) st with
           | .error e => .error e
           | .ok st1 => indexDocsLoop iname snipF embedF rest st1) from rfl] at heq
    cases hins : indexInsertLoop iname d.url ((snipF d.content).zip
        (embedF (snipF d.content))) st with
    | error e => rw [hins] at heq; exact absurd heq (by simp)
    | ok st1 =>
      rw [hins] at heq
      exact ih _ _ (indexInsertLoop_nodup _ _ _ _ _ h hins) heq

/-- `index_documents` never leaves a duplicated (index, document, snippet)
triple: a successful run only inserts triples that were absent, and a
duplicate insert raises and is rolled back to the pre-transaction state. -/
theorem index_documents_nodup (docs : List DBRecord) (iname : List Char)
    (snipF : List Char → List (List Char))
    (embedF : List (List Char) → List (List Int)) (st : IndexState)
    (h : (indexedTriples st).Nodup) :
    (indexedTriples (index_documents docs iname snipF embedF st).1).Nodup := by
  unfold index_documents
  set st1 : IndexState :=
    if st.indexes.any (fun p => p.1 = iname) then st
    else { st with indexes := st.indexes ++ [(iname, 768)] } with hst1
  have h1 : (indexedTriples st1).Nodup := by
    rw [hst1]
    by_cases hx : st.indexes.any (fun p => p.1 = iname) <;>
      simp [indexedTriples, hx] <;> simpa [indexedTriples] using h
  cases hloop : indexDocsLoop iname snipF embedF docs st1 with
  | ok st2 => simpa [hloop] using indexDocsLoop_nodup _ _ _ _ _ _ h1 hloop
  | error e => simpa [hloop] using h1

/-- C7 (amended): indexing the same documents twice under the same index
leaves each (index, document, snippet) triple at most once — starting from
any duplicate-free snippet table, the table is still duplicate-free after
both calls.  (The second call does NOT succeed silently: it aborts with an
IntegrityError, see the counterexample theorem.) -/
theorem C7_no_duplicate_triples (st : IndexState)
    (h : (indexedTriples st).Nodup) (docs : List DBRecord) (iname : List Char)
    (snipF : List Char → List (List Char))
    (embedF : List (List Char) → List (List Int)) :
    (indexedTriples
      (index_documents docs iname snipF embedF
        (index_documents docs iname snipF embedF st).1).1).Nodup :=
  index_documents_nodup _ _ _ _ _ (index_documents_nodup _ _ _ _ _ h)

set_option maxRecDepth 40000 in
/-- Witness for C7 at the empty index state and the concrete document. -/
theorem C7_witness :
    (indexedTriples emptyIndexState).Nodup ∧
    (indexedTriples
      (index_documents [doc7] ['i'] (SimpleSnipper.generate_snippets 1)
        DummyEmbedder.embed
        (index_documents [doc7] ['i'] (SimpleSnipper.generate_snippets 1)
            DummyEmbedder.embed emptyIndexState).1).1).Nodup :=
  ⟨List.nodup_nil,
    C7_no_duplicate_triples emptyIndexState List.nodup_nil [doc7] ['i']
      (SimpleSnipper.generate_snippets 1) DummyEmbedder.embed⟩

/-! ## Partial-failure isolation in the sequential runner -/

/-- A fetch stage failing exactly on the identifiers in `S` (with message
`msg u`) and resolving every other identifier to its single document. -/
def fetchOf (S : List Nat) (msg : Nat → String) (docOf : Nat → TextDocument) :
    Nat → Except String (List TextDocument) :=
  fun u => if u ∈ S then .error (msg u) else .ok [docOf u]

theorem direct_run_trace (S : List Nat) (msg : Nat → String)
    (docOf : Nat → TextDocument) (indexName : List Char)
    (snipF : List Char → List (List Char))
    (embedF : List (List Char) → List (List Int)) :
    ∀ (urls : List Nat) (o : DirectOutcome),
      (direct_run (fetchOf S msg docOf) (fun _ => none) indexName snipF embedF
          urls o).url_failures
        = o.url_failures ++ (urls.filter (fun u => u ∈ S)).map (fun u => (u, msg u)) ∧
      (direct_run (fetchOf S msg docOf) (fun _ => none) indexName snipF embedF
          urls o).writeCalls
        = o.writeCalls ++ (urls.filter (fun u => ¬ u ∈ S)).map (fun u => (docOf u).url) ∧
      (direct_run (fetchOf S msg docOf) (fun _ => none) indexName snipF embedF
          urls o).indexCalls
        = o.indexCalls ++ (urls.filter (fun u => ¬ u ∈ S)).map (fun u => (docOf u).url) := by
  intro urls
  induction urls with
  | nil => intro o; simp [direct_run]
  | cons u rest ih =>
    intro o
    have hstep : direct_run (fetchOf S msg docOf) (fun _ => none) indexName snipF
        embedF (u :: rest) o
        = direct_run (fetchOf S msg docOf) (fun _ => none) indexName snipF embedF
            rest (processUrl (fetchOf S msg docOf) (fun _ => none) indexName snipF
              embedF o u) := rfl
    by_cases hS : u ∈ S
    · have hpu : processUrl (fetchOf S msg docOf) (fun _ => none) indexName snipF
          embedF o u
          = { o with url_failures := o.url_failures ++ [(u, msg u)] } := by
        simp [processUrl, fetchOf, hS]
      obtain ⟨i1, i2, i3⟩ := ih ({ o with url_failures := o.url_failures ++ [(u, msg u)] })
      rw [hstep, hpu]
      refine ⟨?_, ?_, ?_⟩
      · rw [i1]; simp [hS]
      · rw [i2]; simp [hS]
      · rw [i3]; simp [hS]
    · have hwrite : write_documents_to_database (fun _ => none) o.db [docOf u]
          = .ok (update_or_create o.db (docOf u).url (docOf u).title
              (docOf u).content (docOf u).metadata) := by
        simp [write_documents_to_database]
      rcases hix : index_documents ((update_or_create o.db (docOf u).url
          (docOf u).title (docOf u).content (docOf u).metadata).filter
            (fun r => r.url = (docOf u).url)) indexName snipF embedF o.ix with
        ⟨ix1, err⟩
      cases err with
      | none =>
        have hpu : processUrl (fetchOf S msg docOf) (fun _ => none) indexName
            snipF embedF o u
            = { o with
                db := update_or_create o.db (docOf u).url (docOf u).title
                  (docOf u).content (docOf u).metadata,
                ix := ix1,
                writeCalls := o.writeCalls ++ [(docOf u).url],
                indexCalls := o.indexCalls ++ [(docOf u).url] } := by
          simp [processUrl, fetchOf, hS, processDocs, hwrite, hix]
        obtain ⟨i1, i2, i3⟩ := ih { o with
          db := update_or_create o.db (docOf u).url (docOf u).title
            (docOf u).content (docOf u).metadata,
          ix := ix1,
          writeCalls := o.writeCalls ++ [(docOf u).url],
          indexCalls := o.indexCalls ++ [(docOf u).url] }
        rw [hstep, hpu]
        refine ⟨?_, ?_, ?_⟩
        · rw [i1]; simp [hS]
        · rw [i2]; simp [hS]
        · rw [i3]; simp [hS]
      | some e =>
        have hpu : processUrl (fetchOf S msg docOf) (fun _ => none) indexName
            snipF embedF o u
            = { o with
                db := update_or_create o.db (docOf u).url (docOf u).title
                  (docOf u).content (docOf u).metadata,
                ix := ix1,
                index_failures := o.index_failures ++ [((docOf u).url, e)],
                writeCalls := o.writeCalls ++ [(docOf u).url],
                indexCalls := o.indexCalls ++ [(docOf u).url] } := by
          simp [processUrl, fetchOf, hS, processDocs, hwrite, hix]
        obtain ⟨i1, i2, i3⟩ := ih { o with
          db := update_or_create o.db (docOf u).url (docOf u).title
            (docOf u).content (docOf u).metadata,
          ix := ix1,
          index_failures := o.index_failures ++ [((docOf u).url, e)],
          writeCalls := o.writeCalls ++ [(docOf u).url],
          indexCalls := o.indexCalls ++ [(docOf u).url] }
        rw [hstep, hpu]
        refine ⟨?_, ?_, ?_⟩
        · rw [i1]; simp [hS]
        · rw [i2]; simp [hS]
        · rw [i3]; simp [hS]

/-- C8: with the fetch stage failing exactly on `S`, the sequential runner
records under stage "url_to_documents" exactly the identifiers of `S` (in
order, each paired with its own error message), the persist and index stages
are entered for exactly the identifiers outside `S`, and when any failure
occurred the report handed to the failure callback carries the stage tag and
exactly the failed identifiers. -/
theorem C8_partial_failure_isolation (urls S : List Nat) (msg : Nat → String)
    (docOf : Nat → TextDocument) (indexName : List Char)
    (snipF : List Char → List (List Char))
    (embedF : List (List Char) → List (List Int))
    (db : List DBRecord) (ix : IndexState) :
    (direct_run (fetchOf S msg docOf) (fun _ => none) indexName snipF embedF
        urls (initialOutcome db ix)).url_failures
      = (urls.filter (fun u => u ∈ S)).map (fun u => (u, msg u)) ∧
    (direct_run (fetchOf S msg docOf) (fun _ => none) indexName snipF embedF
        urls (initialOutcome db ix)).writeCalls
      = (urls.filter (fun u => ¬ u ∈ S)).map (fun u => (docOf u).url) ∧
    (direct_run (fetchOf S msg docOf) (fun _ => none) indexName snipF embedF
        urls (initialOutcome db ix)).indexCalls
      = (urls.filter (fun u => ¬ u ∈ S)).map (fun u => (docOf u).url) ∧
    ((direct_run (fetchOf S msg docOf) (fun _ => none) indexName snipF embedF
        urls (initialOutcome db ix)).url_failures ≠ [] →
      ∃ rep, handle_failures
          (direct_run (fetchOf S msg docOf) (fun _ => none) indexName snipF
            embedF urls (initialOutcome db ix)).url_failures "url_to_documents"
          = some rep ∧
        rep.step = "url_to_documents" ∧
        rep.failed_urls = urls.filter (fun u => u ∈ S)) := by
  obtain ⟨i1, i2, i3⟩ := direct_run_trace S msg docOf indexName snipF embedF urls
    (initialOutcome db ix)
  simp only [initialOutcome] at i1 i2 i3 ⊢
  simp only [List.nil_append] at i1 i2 i3
  refine ⟨i1, i2, i3, ?_⟩
  intro hne
  rw [i1] at hne ⊢
  cases hf : (urls.filter (fun u => u ∈ S)).map (fun u => (u, msg u)) with
  | nil => exact absurd hf hne
  | cons p ps =>
    obtain ⟨a, b⟩ := p
    refine ⟨⟨"url_to_documents", ((a, b) :: ps).map (fun f => f.1),
      "Failed during " ++ "url_to_documents" ++ ": " ++ b⟩, rfl, rfl, ?_⟩
    have hfst : ((a, b) :: ps).map (fun f => f.1)
        = ((urls.filter (fun u => u ∈ S)).map (fun u => (u, msg u))).map
            (fun f => f.1) := by rw [hf]
    show ((a, b) :: ps).map (fun f => f.1) = _
    rw [hfst, List.map_map]
    exact List.map_id _

set_option maxRecDepth 40000 in
/-- Witness for C8: urls [1, 2] with fetch failing exactly on url 2. -/
theorem C8_witness :
    ∃ rep, handle_failures
        (direct_run (fetchOf [2] (fun _ => "boom")
            (fun u => ⟨['t'], ['a'], [], u⟩)) (fun _ => none) ['i']
          (SimpleSnipper.generate_snippets 1) DummyEmbedder.embed [1, 2]
          (initialOutcome [] emptyIndexState)).url_failures "url_to_documents"
      = some rep ∧ rep.step = "url_to_documents" ∧
      rep.failed_urls = [1, 2].filter (fun u => u ∈ [2]) :=
  (C8_partial_failure_isolation [1, 2] [2] (fun _ => "boom")
      (fun u => ⟨['t'], ['a'], [], u⟩) ['i'] (SimpleSnipper.generate_snippets 1)
      DummyEmbedder.embed [] emptyIndexState).2.2.2 (by decide)

/-! ## Configuration validation -/

/-- The four validity conditions named by the claim: `data_source`,
`snipper.type`, `embedder.type` resolve against their registries and
`index_name` is present and non-empty (Python string truthiness makes `None`
and `""` fail alike). -/
def invalidFour (c : PipelineConfig) : Bool :=
  (match c.data_source with
   | none => true
   | some n => n = "" || !DATA_SOURCE_REGISTRY.contains n) ||
  (match c.snipper_type with
   | none => true
   | some n => n = "" || !SNIPPER_REGISTRY.contains n) ||
  (match c.embedder_type with
   | none => true
   | some n => n = "" || !EMBEDDER_REGISTRY.contains n) ||
  (match c.index_name with
   | none => true
   | some s => s = "")

theorem initialize_data_source_ok (c : PipelineConfig) (u : Unit)
    (h : initialize_data_source c = .ok u) :
    ∃ n, c.data_source = some n ∧ (n = "" || !DATA_SOURCE_REGISTRY.contains n) = false := by
  cases hds : c.data_source with
  | none => simp [initialize_data_source, hds] at h
  | some n =>
    simp only [initialize_data_source, hds] at h
    by_cases h1 : n = "" ∨ ¬ DATA_SOURCE_REGISTRY.contains n
    · rw [if_pos h1] at h; exact absurd h (by simp)
    · refine ⟨n, rfl, ?_⟩
      push_neg at h1
      obtain ⟨h1a, h1b⟩ := h1
      have h1c : n ∈ DATA_SOURCE_REGISTRY := by simpa using h1b
      simp [h1a, h1c]

theorem initialize_snipper_ok (c : PipelineConfig) (u : Unit)
    (h : initialize_snipper c = .ok u) :
    ∃ n, c.snipper_type = some n ∧ (n = "" || !SNIPPER_REGISTRY.contains n) = false := by
  cases hds : c.snipper_type with
  | none => simp [initialize_snipper, hds] at h
  | some n =>
    simp only [initialize_snipper, hds] at h
    by_cases h1 : n = "" ∨ ¬ SNIPPER_REGISTRY.contains n
    · rw [if_pos h1] at h; exact absurd h (by simp)
    · refine ⟨n, rfl, ?_⟩
      push_neg at h1
      obtain ⟨h1a, h1b⟩ := h1
      have h1c : n ∈ SNIPPER_REGISTRY := by simpa using h1b
      simp [h1a, h1c]

theorem initialize_embedder_ok (c : PipelineConfig) (u : Unit)
    (h : initialize_embedder c = .ok u) :
    ∃ n, c.embedder_type = some n ∧ (n = "" || !EMBEDDER_REGISTRY.contains n) = false := by
  cases hds : c.embedder_type with
  | none => simp [initialize_embedder, hds] at h
  | some n =>
    simp only [initialize_embedder, hds] at h
    by_cases h1 : n = "" ∨ ¬ EMBEDDER_REGISTRY.contains n
    · rw [if_pos h1] at h; exact absurd h (by simp)
    · refine ⟨n, rfl, ?_⟩
      push_neg at h1
      obtain ⟨h1a, h1b⟩ := h1
      have h1c : n ∈ EMBEDDER_REGISTRY := by simpa using h1b
      simp [h1a, h1c]

/-- A configuration failing any of the four validity conditions makes
`config_phase` raise. -/
theorem config_phase_error_of_invalid (c : PipelineConfig)
    (h : invalidFour c = true) : ∃ e, config_phase c = .error e := by
  cases hcp : config_phase c with
  | error e => exact ⟨e, rfl⟩
  | ok u =>
    exfalso
    unfold config_phase at hcp
    cases h1 : initialize_data_source c with
    | error e => rw [h1] at hcp; exact absurd hcp (by simp)
    | ok u1 =>
      rw [h1] at hcp
      cases h2 : initialize_snipper c with
      | error e => rw [h2] at hcp; exact absurd hcp (by simp)
      | ok u2 =>
        rw [h2] at hcp
        cases h3 : initialize_embedder c with
        | error e => rw [h3] at hcp; exact absurd hcp (by simp)
        | ok u3 =>
          rw [h3] at hcp
          cases h4 : get_document_data_model c with
          | error e => rw [h4] at hcp; exact absurd hcp (by simp)
          | ok u4 =>
            rw [h4] at hcp
            obtain ⟨n1, hn1, hv1⟩ := initialize_data_source_ok c u1 h1
            obtain ⟨n2, hn2, hv2⟩ := initialize_snipper_ok c u2 h2
            obtain ⟨n3, hn3, hv3⟩ := initialize_embedder_ok c u3 h3
            cases h5 : c.index_name with
            | none => rw [h5] at hcp; exact absurd hcp (by simp)
            | some sname =>
              rw [h5] at hcp
              by_cases h6 : sname = ""
              · simp [h6] at hcp
              · simp only [invalidFour, hn1, hn2, hn3, h5] at h
                rw [hv1, hv2, hv3] at h
                simp [h6] at h

/-- With the four values valid, any configuration-time error is one of the
other two (`ValueError` for empty categories, AttributeError for a bad
`document_data_model`) — never one of the four errors the claim names. -/
theorem config_phase_valid_errors (c : PipelineConfig)
    (hval : invalidFour c = false) (e : ConfigError)
    (hcp : config_phase c = .error e) :
    e = .dataSourceParams ∨ e = .badDocumentModel := by
  simp only [invalidFour, Bool.or_eq_false_iff] at hval
  obtain ⟨⟨⟨hv1, hv2⟩, hv3⟩, hv4⟩ := hval
  cases hds : c.data_source with
  | none => rw [hds] at hv1; simp at hv1
  | some n1 =>
    rw [hds] at hv1
    simp at hv1
    have hne1 : ¬(n1 = "" ∨ ¬ DATA_SOURCE_REGISTRY.contains n1) := by
      push_neg
      exact ⟨hv1.1, by simpa using hv1.2⟩
    cases hsn : c.snipper_type with
    | none => rw [hsn] at hv2; simp at hv2
    | some n2 =>
      rw [hsn] at hv2
      simp at hv2
      have hne2 : ¬(n2 = "" ∨ ¬ SNIPPER_REGISTRY.contains n2) := by
        push_neg
        exact ⟨hv2.1, by simpa using hv2.2⟩
      cases hem : c.embedder_type with
      | none => rw [hem] at hv3; simp at hv3
      | some n3 =>
        rw [hem] at hv3
        simp at hv3
        have hne3 : ¬(n3 = "" ∨ ¬ EMBEDDER_REGISTRY.contains n3) := by
          push_neg
          exact ⟨hv3.1, by simpa using hv3.2⟩
        cases hix : c.index_name with
        | none => rw [hix] at hv4; simp at hv4
        | some sname =>
          rw [hix] at hv4
          simp at hv4
          simp only [config_phase, initialize_data_source, initialize_snipper,
            initialize_embedder, get_document_data_model, hds, hsn, hem, hix,
            if_neg hne1, if_neg hne2, if_neg hne3, if_neg hv4] at hcp
          by_cases hcat : c.data_source_categories = []
          · rw [if_pos hcat] at hcp
            simp at hcp
            exact Or.inl hcp.symm
          · rw [if_neg hcat] at hcp
            by_cases hm : MODELS_ATTRS.contains (c.document_data_model.getD "Document")
            · rw [if_pos hm] at hcp
              simp at hcp
            · rw [if_neg hm] at hcp
              simp at hcp
              exact Or.inr hcp.symm

/-- C9: a configuration in which `data_source`, `snipper.type` or
`embedder.type` is missing/unresolvable, or `index_name` is empty or
missing, makes both runners raise a configuration error before any stage and
before any corpus I/O (`generate_urls` is invoked zero times, no outcome is
produced); conversely, with all four values valid, no error of those four
kinds is raised at configuration time. -/
theorem C9_config_validation (c : PipelineConfig) :
    (invalidFour c = true →
       ∃ e, config_phase c = .error e ∧
         (∀ (genUrls : Except String (List Nat))
            (fetch : Nat → Except String (List TextDocument))
            (rowFail : TextDocument → Option String)
            (db : List DBRecord) (ix : IndexState),
            run_pipeline_direct c genUrls fetch rowFail db ix
              = (.error (.config e), 0) ∧
            beam_run c genUrls fetch rowFail db = .error (.config e))) ∧
    (invalidFour c = false →
       ∀ e, config_phase c = .error e →
         e ≠ .unknownDataSource ∧ e ≠ .unknownSnipper ∧
         e ≠ .unknownEmbedder ∧ e ≠ .missingIndexName) := by
  constructor
  · intro hinv
    obtain ⟨e, he⟩ := config_phase_error_of_invalid c hinv
    refine ⟨e, he, fun genUrls fetch rowFail db ix => ?_⟩
    constructor
    · unfold run_pipeline_direct
      rw [he]
    · unfold beam_run
      rw [he]
  · intro hval e hcp
    rcases config_phase_valid_errors c hval e hcp with rfl | rfl <;>
      exact ⟨by simp, by simp, by simp, by simp⟩

/-- Witness for C9: a bad configuration (missing index name) raises before
any stage, and the valid `sampleConfig` raises none of the four errors. -/
theorem C9_witness :
    (invalidFour { sampleConfig with index_name := none } = true ∧
      ∃ e, config_phase { sampleConfig with index_name := none } = .error e ∧
        (∀ (genUrls : Except String (List Nat))
           (fetch : Nat → Except String (List TextDocument))
           (rowFail : TextDocument → Option String)
           (db : List DBRecord) (ix : IndexState),
           run_pipeline_direct { sampleConfig with index_name := none }
               genUrls fetch rowFail db ix = (.error (.config e), 0) ∧
           beam_run { sampleConfig with index_name := none } genUrls fetch
               rowFail db = .error (.config e))) ∧
    (invalidFour sampleConfig = false ∧
      ∀ e, config_phase sampleConfig = .error e →
        e ≠ .unknownDataSource ∧ e ≠ .unknownSnipper ∧
        e ≠ .unknownEmbedder ∧ e ≠ .missingIndexName) :=
  ⟨⟨by decide, (C9_config_validation _).1 (by decide)⟩,
   ⟨by decide, (C9_config_validation _).2 (by decide)⟩⟩

/-! ## Correctness of the fixed-word-count snipper -/

theorem pySplitAux_words (l : List Char) :
    ∀ (acc : List Char), (∀ c ∈ acc, isPySpace c = false) →
      ∀ w ∈ pySplitAux l acc, w ≠ [] ∧ ∀ c ∈ w, isPySpace c = false := by
  induction l with
  | nil =>
    intro acc hacc w hw
    unfold pySplitAux at hw
    by_cases ha : acc = []
    · rw [if_pos ha] at hw; simp at hw
    · rw [if_neg ha] at hw
      simp only [List.mem_singleton] at hw
      subst hw
      refine ⟨by simpa using ha, ?_⟩
      intro c hc
      exact hacc c (List.mem_reverse.mp hc)
  | cons c cs ih =>
    intro acc hacc w hw
    unfold pySplitAux at hw
    by_cases hc : isPySpace c
    · rw [if_pos hc] at hw
      by_cases ha : acc = []
      · rw [if_pos ha] at hw
        exact ih [] (by simp) w hw
      · rw [if_neg ha] at hw
        rcases List.mem_cons.mp hw with rfl | hw2
        · refine ⟨by simpa using ha, ?_⟩
          intro x hx
          exact hacc x (List.mem_reverse.mp hx)
        · exact ih [] (by simp) w hw2
    · rw [if_neg hc] at hw
      refine ih (c :: acc) ?_ w hw
      intro x hx
      rcases List.mem_cons.mp hx with rfl | hx2
      · simpa using hc
      · exact hacc x hx2

/-- The words of `pySplit` are non-empty and whitespace-free. -/
theorem pySplit_words (l : List Char) :
    ∀ w ∈ pySplit l, w ≠ [] ∧ ∀ c ∈ w, isPySpace c = false :=
  pySplitAux_words l [] (by simp)

/-- Scanning a whitespace-free word accumulates it. -/
theorem pySplitAux_word_append (w : List Char)
    (hw : ∀ c ∈ w, isPySpace c = false) (rest : List Char) :
    ∀ acc, pySplitAux (w ++ rest) acc = pySplitAux rest (w.reverse ++ acc) := by
  induction w with
  | nil => intro acc; simp
  | cons c w1 ih =>
    intro acc
    have hc : isPySpace c = false := hw c (by simp)
    have hw1 : ∀ x ∈ w1, isPySpace x = false := fun x hx => hw x (by simp [hx])
    have h1 : pySplitAux (c :: (w1 ++ rest)) acc = pySplitAux (w1 ++ rest) (c :: acc) := by
      simp only [pySplitAux]
      rw [if_neg (by simp [hc])]
    show pySplitAux (c :: (w1 ++ rest)) acc = _
    rw [h1, ih hw1 (c :: acc)]
    simp [List.append_assoc]

/-- Splitting the single-space join of non-empty, whitespace-free words
recovers exactly those words. -/
theorem pySplit_intercalate (ws : List (List Char))
    (h : ∀ w ∈ ws, w ≠ [] ∧ ∀ c ∈ w, isPySpace c = false) :
    pySplit (List.intercalate [' '] ws) = ws := by
  induction ws with
  | nil => simp [List.intercalate, pySplit, pySplitAux]
  | cons w ws1 ih =>
    obtain ⟨hne, hns⟩ := h w (by simp)
    have hrest : ∀ x ∈ ws1, x ≠ [] ∧ ∀ c ∈ x, isPySpace c = false :=
      fun x hx => h x (by simp [hx])
    cases ws1 with
    | nil =>
      have h1 : List.intercalate [' '] [w] = w := by simp [List.intercalate]
      rw [h1]
      have h2 : pySplitAux (w ++ []) [] = pySplitAux [] (w.reverse ++ []) :=
        pySplitAux_word_append w hns [] []
      rw [List.append_nil, List.append_nil] at h2
      unfold pySplit
      rw [h2]
      unfold pySplitAux
      rw [if_neg (by simpa using hne)]
      simp
    | cons w2 ws2 =>
      have hstep : List.intercalate [' '] (w :: w2 :: ws2)
          = w ++ ' ' :: List.intercalate [' '] (w2 :: ws2) := by
        simp [List.intercalate, List.intersperse]
      rw [hstep]
      unfold pySplit
      rw [pySplitAux_word_append w hns _ []]
      rw [List.append_nil]
      unfold pySplitAux
      rw [if_pos (by simp [isPySpace])]
      rw [if_neg (by simpa using hne)]
      rw [List.reverse_reverse]
      exact congrArg (w :: ·) (ih hrest)

/-- Flattening the word chunks recovers the word list. -/
theorem simpleChunksF_flatten (k : Nat) (hk : k ≠ 0) :
    ∀ (f : Nat) (l : List α), l.length ≤ f →
      (simpleChunksF k f l).flatten = l := by
  intro f
  induction f with
  | zero =>
    intro l hl
    rw [List.length_eq_zero.mp (Nat.le_zero.mp hl)]
    rfl
  | succ n ih =>
    intro l hl
    cases l with
    | nil => rfl
    | cons a l1 =>
      show (simpleChunksF k (n + 1) (a :: l1)).flatten = _
      unfold simpleChunksF
      rw [if_neg hk]
      rw [List.flatten_cons]
      rw [ih ((a :: l1).drop k) ?hlen]
      · exact List.take_append_drop k (a :: l1)
      case hlen =>
        rw [List.length_drop]
        simp only [List.length_cons] at hl ⊢
        omega

/-- The number of chunks is the ceiling `⌈n / k⌉ = (n + k - 1) / k`. -/
theorem simpleChunksF_length (k : Nat) (hk : 0 < k) :
    ∀ (f : Nat) (l : List α), l.length ≤ f →
      (simpleChunksF k f l).length = (l.length + k - 1) / k := by
  intro f
  induction f with
  | zero =>
    intro l hl
    rw [List.length_eq_zero.mp (Nat.le_zero.mp hl)]
    simp [simpleChunksF]
    exact (Nat.div_eq_of_lt (by omega)).symm
  | succ n ih =>
    intro l hl
    cases l with
    | nil =>
      simp [simpleChunksF]
      exact (Nat.div_eq_of_lt (by omega)).symm
    | cons a l1 =>
      show (simpleChunksF k (n + 1) (a :: l1)).length = _
      unfold simpleChunksF
      rw [if_neg (by omega)]
      rw [List.length_cons]
      rw [ih ((a :: l1).drop k) ?hlen]
      case hlen =>
        rw [List.length_drop]
        simp only [List.length_cons] at hl ⊢
        omega
      rw [List.length_drop]
      simp only [List.length_cons]
      by_cases hle : l1.length + 1 ≤ k
      · have h1 : l1.length + 1 - k = 0 := by omega
        rw [h1]
        have h2 : (0 + k - 1) / k = 0 := Nat.div_eq_of_lt (by omega)
        rw [h2]
        exact (Nat.div_eq_of_lt_le (by omega) (by omega)).symm
      · have h1 : l1.length + 1 - k + k - 1 = l1.length := by omega
        have h2 : l1.length + 1 + k - 1 = l1.length + k := by omega
        rw [h1, h2]
        rw [Nat.add_div_right _ hk]

/-- Each chunk is non-empty and holds at most `k` words. -/
theorem simpleChunksF_mem (k : Nat) (hk : k ≠ 0) :
    ∀ (f : Nat) (l : List α), ∀ ch ∈ simpleChunksF k f l,
      ch ≠ [] ∧ ch.length ≤ k := by
  intro f
  induction f with
  | zero => intro l ch hch; simp [simpleChunksF] at hch
  | succ n ih =>
    intro l ch hch
    cases l with
    | nil => simp [simpleChunksF] at hch
    | cons a l1 =>
      unfold simpleChunksF at hch
      rw [if_neg hk] at hch
      rcases List.mem_cons.mp hch with rfl | hch2
      · constructor
        · cases k with
          | zero => exact absurd rfl hk
          | succ k1 => simp
        · simpa using List.length_take_le k (a :: l1)
      · exact ih _ ch hch2

theorem simpleChunksF_nil (k : Nat) : ∀ f, simpleChunksF k f ([] : List α) = [] := by
  intro f
  cases f <;> rfl

/-- Every chunk except the last holds exactly `k` words: a chunk is
`take k`, and it is followed by another chunk exactly when `drop k` was
non-empty, i.e. when at least `k` elements were available. -/
theorem simpleChunksF_dropLast_length (k : Nat) (hk : 0 < k) :
    ∀ (f : Nat) (l : List α), ∀ ch ∈ (simpleChunksF k f l).dropLast,
      ch.length = k := by
  intro f
  induction f with
  | zero => intro l ch hch; simp [simpleChunksF] at hch
  | succ n ih =>
    intro l ch hch
    cases l with
    | nil => simp [simpleChunksF] at hch
    | cons a l1 =>
      unfold simpleChunksF at hch
      rw [if_neg (by omega)] at hch
      cases hrc : simpleChunksF k n ((a :: l1).drop k) with
      | nil => rw [hrc] at hch; simp at hch
      | cons c2 cs2 =>
        rw [hrc] at hch
        simp only [List.dropLast_cons₂] at hch
        rcases List.mem_cons.mp hch with rfl | hch2
        · have hdrop : (a :: l1).drop k ≠ [] := by
            intro hcon
            rw [hcon, simpleChunksF_nil] at hrc
            exact absurd hrc (by simp)
          have hlen : k ≤ (a :: l1).length := by
            by_contra hcon
            exact hdrop (List.drop_eq_nil_iff_le.mpr (by omega))
          rw [List.length_take]
          omega
        · exact ih _ ch (by rw [hrc]; exact hch2)

/-- C4: for content of `n` whitespace-separated words and `snippet_length =
k > 0`, `SimpleSnipper.generate_snippets` yields exactly `⌈n/k⌉` non-empty
snippets; splitting the snippets back into words and concatenating them in
yield order reproduces the original word sequence exactly (so the words of
the snippets are consecutive, in order, with no overlap); every snippet
before the last consists of exactly `k` words and every snippet of at most
`k` words (the last possibly fewer); and each snippet is literally its words
joined by single spaces. -/
theorem C4_simple_snipper (k : Nat) (hk : 0 < k) (content : List Char) :
    (SimpleSnipper.generate_snippets k content).length
      = ((pySplit content).length + k - 1) / k ∧
    ((SimpleSnipper.generate_snippets k content).map pySplit).flatten
      = pySplit content ∧
    (∀ s ∈ (SimpleSnipper.generate_snippets k content).dropLast,
      (pySplit s).length = k) ∧
    ∀ s ∈ SimpleSnipper.generate_snippets k content,
      s ≠ [] ∧ pySplit s ≠ [] ∧ (pySplit s).length ≤ k ∧
      s = List.intercalate [' '] (pySplit s) := by
  have hkne : k ≠ 0 := by omega
  have hchunks_flatten : (simpleChunks k (pySplit content)).flatten = pySplit content :=
    simpleChunksF_flatten k hkne _ _ le_rfl
  have hchunk_spec : ∀ ch ∈ simpleChunks k (pySplit content), ch ≠ [] ∧ ch.length ≤ k :=
    fun ch hch => simpleChunksF_mem k hkne _ _ ch hch
  have hchunk_words : ∀ ch ∈ simpleChunks k (pySplit content),
      ∀ w ∈ ch, w ≠ [] ∧ ∀ c ∈ w, isPySpace c = false := by
    intro ch hch w hw
    have hwmem : w ∈ pySplit content := by
      rw [← hchunks_flatten]
      exact List.mem_flatten.mpr ⟨ch, hch, hw⟩
    exact pySplit_words content w hwmem
  have hsnip : ∀ ch ∈ simpleChunks k (pySplit content),
      pySplit (List.intercalate [' '] ch) = ch :=
    fun ch hch => pySplit_intercalate ch (hchunk_words ch hch)
  have hne : ∀ ch ∈ simpleChunks k (pySplit content),
      List.intercalate [' '] ch ≠ [] := by
    intro ch hch
    obtain ⟨hch0, _⟩ := hchunk_spec ch hch
    intro hcon
    apply hch0
    have := hsnip ch hch
    rw [hcon] at this
    rw [← this]
    rfl
  have hfilter : SimpleSnipper.generate_snippets k content
      = (simpleChunks k (pySplit content)).map
          (fun chunk => List.intercalate [' '] chunk) := by
    unfold SimpleSnipper.generate_snippets
    apply List.filter_eq_self.mpr
    intro s hs
    obtain ⟨ch, hch, rfl⟩ := List.mem_map.mp hs
    simpa using hne ch hch
  refine ⟨?_, ?_, ?_, ?_⟩
  · rw [hfilter, List.length_map]
    exact simpleChunksF_length k hk _ _ le_rfl
  · rw [hfilter, List.map_map]
    have hmap : (simpleChunks k (pySplit content)).map
          (pySplit ∘ fun chunk => List.intercalate [' '] chunk)
        = (simpleChunks k (pySplit content)).map (fun ch => ch) :=
      List.map_congr_left (fun ch hch => hsnip ch hch)
    rw [hmap, List.map_id']
    exact hchunks_flatten
  · intro s hs
    rw [hfilter, ← List.map_dropLast] at hs
    obtain ⟨ch, hch, rfl⟩ := List.mem_map.mp hs
    have hch' : ch ∈ simpleChunks k (pySplit content) :=
      List.dropLast_subset _ hch
    rw [hsnip ch hch']
    exact simpleChunksF_dropLast_length k hk _ _ ch hch
  · intro s hs
    rw [hfilter] at hs
    obtain ⟨ch, hch, rfl⟩ := List.mem_map.mp hs
    refine ⟨hne ch hch, ?_, ?_, ?_⟩
    · rw [hsnip ch hch]
      exact (hchunk_spec ch hch).1
    · rw [hsnip ch hch]
      exact (hchunk_spec ch hch).2
    · rw [hsnip ch hch]

/-- Witness for C4 at `k = 2` on content "a b c". -/
theorem C4_witness :
    (0 < 2) ∧
    (SimpleSnipper.generate_snippets 2 "a b c".toList).length
      = ((pySplit "a b c".toList).length + 2 - 1) / 2 ∧
    ((SimpleSnipper.generate_snippets 2 "a b c".toList).map pySplit).flatten
      = pySplit "a b c".toList ∧
    (∀ s ∈ (SimpleSnipper.generate_snippets 2 "a b c".toList).dropLast,
      (pySplit s).length = 2) ∧
    ∀ s ∈ SimpleSnipper.generate_snippets 2 "a b c".toList,
      s ≠ [] ∧ pySplit s ≠ [] ∧ (pySplit s).length ≤ 2 ∧
      s = List.intercalate [' '] (pySplit s) :=
  ⟨by decide, (C4_simple_snipper 2 (by decide) "a b c".toList).1,
    (C4_simple_snipper 2 (by decide) "a b c".toList).2⟩

end Historia
